import Mathlib

/-!
Verification development for the openFDA adverse-event data pipeline
(`thanyathonk/data_pipeline`).

The Lean definitions below are a shallow embedding of the Python/pandas code:

* tables are lists of typed rows, in file order;
* `pandas.DataFrame.drop_duplicates()` (keep first) is `pdDedup` /
  `pdDedupBy`;
* `DataFrame.merge` is a left-driven nested-loop join over lists, which
  reproduces both the row multiset and the row order pandas produces;
* `NaN` / missing values are `Option.none`; a pandas merge recodes the
  `NaN` keys of both sides into one shared group, so `NaN` keys match each
  other (unlike SQL), which `keyMatches` reproduces — while `isin` and the
  `dropna`-ed chunk id sets drop `NaN` keys.

Embedded components and their sources:

* `slug_key` — `src/merge/common_utils.py`;
* the chunked streaming join of the merge stage — `src/core/merge_data_all_ages.py`;
* stage-4 pair materialization — `src/stage4_merge_back.py`;
* the RxNorm ingredient resolution step and the MedDRA hierarchy step —
  `src/core/openFDA_Entity_Relationship_Tables_v2.py`.
-/

/-! ## Pandas-style deduplication

`DataFrame.drop_duplicates()` keeps the first occurrence of each row.
`pdDedupBy f` models `drop_duplicates(subset=...)`: the first row is kept
for each value of the key function `f`.
-/

def pdDedupByAux [DecidableEq κ] (f : α → κ) (seen : List κ) : List α → List α
  | [] => []
  | x :: xs =>
    if f x ∈ seen then pdDedupByAux f seen xs
    else x :: pdDedupByAux f (f x :: seen) xs

def pdDedupBy [DecidableEq κ] (f : α → κ) (l : List α) : List α :=
  pdDedupByAux f [] l

def pdDedup [DecidableEq α] (l : List α) : List α := pdDedupBy id l

/-! ## `slug_key` (`src/merge/common_utils.py`, lines 36–46)

```python
def slug_key(s):
    if s is None:
        return None
    s = str(s).lower()
    s = re.sub(r"[^a-z0-9\s]", " ", s)
    s = re.sub(r"\s+", " ", s).strip()
    return s
```

Strings are embedded as `List Char`.  `str.lower` is modelled by its action
on ASCII (`pyLowerChar`); a non-ASCII letter is left unchanged and then
replaced by a space by the first substitution, which is also what happens to
its Python-lowercased form, so the final output agrees.  The regex class
`\s` is modelled by the six ASCII whitespace characters; a non-ASCII
whitespace character is instead replaced by a space by the first
substitution, after which the run-collapsing substitution produces the same
output, so again the final result agrees.
-/

def pyLowerChar (c : Char) : Char :=
  if 'A' ≤ c ∧ c ≤ 'Z' then Char.ofNat (c.toNat + 32) else c

def isPySpace (c : Char) : Bool :=
  c == ' ' || c == '\t' || c == '\n' || c == '\r' || c == Char.ofNat 11 || c == Char.ofNat 12

def isLowerAlnum (c : Char) : Bool :=
  ('a' ≤ c && c ≤ 'z') || ('0' ≤ c && c ≤ '9')

/-- One character of `re.sub(r"[^a-z0-9\s]", " ", s)`. -/
def keepOrSpace (c : Char) : Char :=
  if isLowerAlnum c || isPySpace c then c else ' '

/-- `re.sub(r"\s+", " ", s)`: each maximal whitespace run becomes one space.
The flag records whether the previous character belonged to a run. -/
def collapseWsAux : Bool → List Char → List Char
  | _, [] => []
  | prev, c :: cs =>
    if isPySpace c then
      if prev then collapseWsAux true cs else ' ' :: collapseWsAux true cs
    else c :: collapseWsAux false cs

def collapseWs (l : List Char) : List Char := collapseWsAux false l

/-- Remove trailing whitespace (the right half of `str.strip()`). -/
def rstripWs : List Char → List Char
  | [] => []
  | c :: cs =>
    match rstripWs cs with
    | [] => if isPySpace c then [] else [c]
    | d :: ds => c :: d :: ds

/-- `str.strip()`. -/
def stripWs (l : List Char) : List Char := rstripWs (l.dropWhile isPySpace)

/-- The string pipeline of `slug_key` applied to a non-`None` value. -/
def slugCore (l : List Char) : List Char :=
  stripWs (collapseWs ((l.map pyLowerChar).map keepOrSpace))

def slug_key : Option (List Char) → Option (List Char)
  | none => none
  | some l => some (slugCore l)

/-- `true` iff the list contains two adjacent spaces (used to state that
interior spaces are single). -/
def hasDoubleSpace : List Char → Bool
  | c1 :: c2 :: rest => (c1 == ' ' && c2 == ' ') || hasDoubleSpace (c2 :: rest)
  | _ => false

/-- Canonical-form checker for `slug_key` outputs: only ASCII lowercase
letters, digits and spaces; no two adjacent spaces; no leading or trailing
space. -/
def isCanonSlug (l : List Char) : Bool :=
  l.all (fun c => isLowerAlnum c || c == ' ') && !hasDoubleSpace l &&
    l.head? != some ' ' && l.getLast? != some ' '

/-! ## Streaming join engine (`src/core/merge_data_all_ages.py`)

`main` loads four entity tables keyed by `safetyreportid` (the normalized
string key; `NaN` keys are `none`), then drives the patient table
chunk-by-chunk: for each chunk it collects the chunk's non-null key set,
re-filters each other table by that key set (`_filter_by_ids`), performs the
three in-memory pandas merges for the chunk, and appends the result to the
output.  Payload columns are abstracted into one payload value per row; the
`add_prefix` column renaming has no row-level effect and is not modelled.
-/

abbrev SidKey := String

/-- `--join-type` choices of `merge_data_all_ages.py`. -/
inductive JoinType
  | inner
  | left
  | right
  | outer
deriving DecidableEq

/-- pandas merge key equality: merge factorization recodes the `NA` keys
of both frames into one shared code, so a `NaN` (here `none`) key matches
another `NaN` key, and nothing else. -/
def keyMatches (a b : Option SidKey) : Bool :=
  match a, b with
  | some x, some y => x == y
  | none, none => true
  | _, _ => false

/-- One `DataFrame.merge(..., on="safetyreportid", how=how)`.  The output
key is the shared merge column; absent sides are `none` (pandas `NaN`). -/
def joinOn (how : JoinType) (L : List (Option SidKey × α)) (R : List (Option SidKey × β)) :
    List (Option SidKey × (Option α × Option β)) :=
  match how with
  | .inner =>
    L.flatMap fun l =>
      (R.filter fun rr => keyMatches l.1 rr.1).map fun rr => (l.1, (some l.2, some rr.2))
  | .left =>
    L.flatMap fun l =>
      let ms := R.filter fun rr => keyMatches l.1 rr.1
      if ms.isEmpty then [(l.1, (some l.2, (none : Option β)))]
      else ms.map fun rr => (l.1, (some l.2, some rr.2))
  | .right =>
    R.flatMap fun rr =>
      let ms := L.filter fun l => keyMatches l.1 rr.1
      if ms.isEmpty then [(rr.1, ((none : Option α), some rr.2))]
      else ms.map fun l => (l.1, (some l.2, some rr.2))
  | .outer =>
    (L.flatMap fun l =>
      let ms := R.filter fun rr => keyMatches l.1 rr.1
      if ms.isEmpty then [(l.1, (some l.2, (none : Option β)))]
      else ms.map fun rr => (l.1, (some l.2, some rr.2)))
      ++ ((R.filter fun rr => L.all fun l => !keyMatches l.1 rr.1).map fun rr =>
        (rr.1, ((none : Option α), some rr.2)))

/-- A follow-up merge onto an already-merged frame: the left payload is a
tuple of columns that is `NaN`-filled (`dflt`, all-`none`) on rows where the
left side is absent, i.e. only in right/outer joins. -/
def padJoin (how : JoinType) (dflt : π) (L : List (Option SidKey × π))
    (R : List (Option SidKey × β)) : List (Option SidKey × (π × Option β)) :=
  (joinOn how L R).map fun row => (row.1, (row.2.1.getD dflt, row.2.2))

/-- The three chained merges of one chunk (`base = pch ⋈ rep ⋈ ser ⋈ rtr`). -/
def chainJoin (how : JoinType) (P : List (Option SidKey × α)) (R : List (Option SidKey × β))
    (S : List (Option SidKey × γ)) (T : List (Option SidKey × δ)) :
    List (Option SidKey × (((Option α × Option β) × Option γ) × Option δ)) :=
  padJoin how ((none, none), none) (padJoin how (none, none) (joinOn how P R) S) T

/-- The spec's reference result: one unbounded in-memory join pass over the
full tables, with the same join type. -/
def inMemoryJoin (how : JoinType) (P : List (Option SidKey × α)) (R : List (Option SidKey × β))
    (S : List (Option SidKey × γ)) (T : List (Option SidKey × δ)) :
    List (Option SidKey × (((Option α × Option β) × Option γ) × Option δ)) :=
  chainJoin how P R S T

/-- `_filter_by_ids`: keep the rows whose key is in the chunk's key set
(`NaN` keys are never in the set). -/
def filterByIds (ids : List SidKey) (R : List (Option SidKey × β)) : List (Option SidKey × β) :=
  R.filter fun rr =>
    match rr.1 with
    | some v => ids.contains v
    | none => false

/-- Every row of `L` carries a non-null key that belongs to `ids`. -/
def keysSubset (ids : List SidKey) (L : List (Option SidKey × α)) : Prop :=
  ∀ row ∈ L, ∃ v ∈ ids, row.1 = some v

/-- `pd.read_csv(..., chunksize=n)`: the table cut into consecutive chunks
of `n` rows (the last chunk may be shorter).  Implemented with a fuel
counter (the list length) to keep the recursion structural; each step
consumes at least one row, so the fuel never runs out. -/
def chunksOfFuel (n : Nat) : Nat → List α → List (List α)
  | _, [] => []
  | 0, x :: xs => [x :: xs]
  | fuel + 1, x :: xs => (x :: xs.take (n - 1)) :: chunksOfFuel n fuel (xs.drop (n - 1))

def chunksOf (n : Nat) (l : List α) : List (List α) :=
  chunksOfFuel n l.length l

/-- The streaming join of `main`: drive the patient table chunk-by-chunk,
re-filter every other table by the chunk's key set, join in memory, and
concatenate the per-chunk outputs. -/
def streamMerge (how : JoinType) (n : Nat) (P : List (Option SidKey × α))
    (R : List (Option SidKey × β)) (S : List (Option SidKey × γ))
    (T : List (Option SidKey × δ)) :
    List (Option SidKey × (((Option α × Option β) × Option γ) × Option δ)) :=
  (chunksOf n P).flatMap fun ch =>
    let ids := ch.filterMap Prod.fst
    chainJoin how ch (filterByIds ids R) (filterByIds ids S) (filterByIds ids T)

/-- The input files of the merge stage.  `none` models a missing file
(`os.path.exists` false). -/
structure MergeFiles (α β γ δ : Type) where
  patient : Option (List (Option SidKey × α))
  report : Option (List (Option SidKey × β))
  report_serious : Option (List (Option SidKey × γ))
  reporter : Option (List (Option SidKey × δ))

/-- `main(er_root, out_dir, join_type)` of `merge_data_all_ages.py`: the four
required paths are checked in order before any processing; the first missing
file raises `FileNotFoundError(f"Not found: {path}")` and nothing is
written.  On success the streaming join output is the written table. -/
def mergeMain (how : JoinType) (n : Nat) (files : MergeFiles α β γ δ) :
    Except String (List (Option SidKey × (((Option α × Option β) × Option γ) × Option δ))) :=
  match files.patient, files.report, files.report_serious, files.reporter with
  | none, _, _, _ => .error "Not found: patient.csv.gz"
  | some _, none, _, _ => .error "Not found: report.csv.gz"
  | some _, some _, none, _ => .error "Not found: report_serious.csv.gz"
  | some _, some _, some _, none => .error "Not found: reporter.csv.gz"
  | some p, some r, some s, some t => .ok (streamMerge how n p r s t)

def requiredMergeFiles : List String :=
  ["patient.csv.gz", "report.csv.gz", "report_serious.csv.gz", "reporter.csv.gz"]

/-- Whether the named required input file is absent. -/
def fileAbsent (files : MergeFiles α β γ δ) (name : String) : Bool :=
  if name = "patient.csv.gz" then files.patient.isNone
  else if name = "report.csv.gz" then files.report.isNone
  else if name = "report_serious.csv.gz" then files.report_serious.isNone
  else if name = "reporter.csv.gz" then files.reporter.isNone
  else false

/-! ## Stage-4 pair materialization (`src/stage4_merge_back.py`)

```python
pairs = drug_mapped.merge(adr_mapped, on="safetyreportid", how="inner") \
                   .drop_duplicates(["safetyreportid","medicinal_product","reaction_meddrapt"])
final_df = base.merge(pairs, on="safetyreportid", how="inner")
```

`drug_mapped` rows carry `{safetyreportid, medicinal_product, INN}` and
`adr_mapped` rows carry `{safetyreportid, reaction_meddrapt, pt_id, pt_code,
soc_id, soc_code, soc_name}` (the three `soc_*` fields come from a left
join and may be missing).  Both tables were `dropna`-ed on their key
columns upstream, so keys are plain strings here.
-/

structure DrugMappedRow where
  sid : String
  medicinal_product : String
  inn : String
deriving DecidableEq

structure AdrMappedRow where
  sid : String
  reaction_meddrapt : String
  pt_id : Int
  pt_code : String
  soc_id : Option Int
  soc_code : Option String
  soc_name : Option String
deriving DecidableEq

structure PairRow where
  sid : String
  medicinal_product : String
  inn : String
  reaction_meddrapt : String
  pt_id : Int
  pt_code : String
  soc_id : Option Int
  soc_code : Option String
  soc_name : Option String
deriving DecidableEq

def mkPairRow (d : DrugMappedRow) (a : AdrMappedRow) : PairRow :=
  { sid := d.sid
    medicinal_product := d.medicinal_product
    inn := d.inn
    reaction_meddrapt := a.reaction_meddrapt
    pt_id := a.pt_id
    pt_code := a.pt_code
    soc_id := a.soc_id
    soc_code := a.soc_code
    soc_name := a.soc_name }

/-- `pairs`: inner join of drug mentions and reaction mentions on the
report key, deduplicated on (key, product, reaction). -/
def pairsTable (drug : List DrugMappedRow) (adr : List AdrMappedRow) : List PairRow :=
  pdDedupBy (fun p => (p.sid, p.medicinal_product, p.reaction_meddrapt))
    (drug.flatMap fun d => (adr.filter fun a => a.sid == d.sid).map fun a => mkPairRow d a)

/-- `final_df = base.merge(pairs, on="safetyreportid", how="inner")`; the
baseline payload is abstract. -/
def finalTable (base : List (String × β)) (pairs : List PairRow) :
    List ((String × β) × PairRow) :=
  base.flatMap fun b => (pairs.filter fun p => p.sid == b.1).map fun p => (b, p)

/-! ## Vocabulary tables (`openFDA_Entity_Relationship_Tables_v2.py`)

`CONCEPT.csv` rows and `CONCEPT_RELATIONSHIP.csv` rows, with identifier
columns already coerced to integers (`astype(int)`).
-/

structure ConceptRow where
  concept_id : Int
  concept_code : String
  concept_name : String
  concept_class_id : String
  vocabulary_id : String
  standard_concept : String
deriving DecidableEq

structure RelRow where
  concept_id_1 : Int
  concept_id_2 : Int
  relationship_id : String
deriving DecidableEq

/-! ## Ingredient resolution
(`step_standard_drugs_rxnorm_ingredients`, lines 525–788)

`r` is the deduplicated edge list; `c` is the deduplicated projection of the
standard (`standard_concept == "S"`) RxNorm concepts to
`(concept_id, concept_code, concept_class_id, concept_name)`.  The five
hand-unrolled hop joins `fs, st, tf, ff, fsx` all share one shape:
`r[r.concept_id_1.isin(ids)].merge(c, left_on=..1).merge(c, left_on=..2)`
followed by the self-loop filter and `drop_duplicates()`; `hopTable` is that
shape, and each unrolled step instantiates it.  `np.unique` on the id
columns only changes multiplicities of the `isin` probe set, never
membership, and is modelled by the plain id list.
-/

structure CRx where
  concept_id : Int
  concept_code : String
  concept_class_id : String
  concept_name : String
deriving DecidableEq

/-- Lines 537–544: the standard RxNorm concept pool. -/
def cStep (concept : List ConceptRow) : List CRx :=
  pdDedup ((concept.filter fun x => x.vocabulary_id == "RxNorm" && x.standard_concept == "S").map
    fun x => ⟨x.concept_id, x.concept_code, x.concept_class_id, x.concept_name⟩)

/-- One row of a hop table: the raw edge plus the joined source and
destination concept records (pandas keeps all three column groups). -/
abbrev HopRow := RelRow × CRx × CRx

def hopJoin (r : List RelRow) (c : List CRx) (ids : List Int) : List HopRow :=
  (r.filter fun e => ids.contains e.concept_id_1).flatMap fun e =>
    (c.filter fun x => x.concept_id == e.concept_id_1).flatMap fun x1 =>
      (c.filter fun x => x.concept_id == e.concept_id_2).map fun x2 => (e, x1, x2)

def hopTable (r : List RelRow) (c : List CRx) (ids : List Int) : List HopRow :=
  pdDedup ((hopJoin r c ids).filter fun t => t.2.1.concept_id != t.2.2.concept_id)

/-- `fs` (lines 547–577): first → second, starting from the persisted
report-product concept ids. -/
def fsT (r : List RelRow) (c : List CRx) (rxIds : List Int) : List HopRow :=
  hopTable r c rxIds

/-- `st` (lines 580–611): second → third. -/
def stT (r : List RelRow) (c : List CRx) (rxIds : List Int) : List HopRow :=
  hopTable r c ((fsT r c rxIds).map fun t => t.2.2.concept_id)

/-- `tf` (lines 614–645): third → fourth. -/
def tfT (r : List RelRow) (c : List CRx) (rxIds : List Int) : List HopRow :=
  hopTable r c ((stT r c rxIds).map fun t => t.2.2.concept_id)

/-- `ff` (lines 648–679): fourth → fifth.  Computed by the source but never
used by the ingredient mappings below. -/
def ffT (r : List RelRow) (c : List CRx) (rxIds : List Int) : List HopRow :=
  hopTable r c ((tfT r c rxIds).map fun t => t.2.2.concept_id)

/-- `fsx` (lines 682–713): fifth → sixth.  Computed by the source but never
used by the ingredient mappings below. -/
def fsxT (r : List RelRow) (c : List CRx) (rxIds : List Int) : List HopRow :=
  hopTable r c ((ffT r c rxIds).map fun t => t.2.2.concept_id)

/-- `fs.merge(st, on=[the four level-2 concept columns])` shared by `rx123`
and `rx1234` (lines 717 and 747). -/
def fsStMerge (r : List RelRow) (c : List CRx) (rxIds : List Int) : List (HopRow × HopRow) :=
  (fsT r c rxIds).flatMap fun f =>
    ((stT r c rxIds).filter fun s => s.2.1 == f.2.2).map fun s => (f, s)

/-- `rx123` (lines 716–720): two-hop paths whose third concept is an
Ingredient of a class different from the origin's class. -/
def rx123T (r : List RelRow) (c : List CRx) (rxIds : List Int) : List (HopRow × HopRow) :=
  pdDedup ((fsStMerge r c rxIds).filter fun p =>
    p.2.2.2.concept_class_id == "Ingredient" &&
      p.1.2.1.concept_class_id != p.2.2.2.concept_class_id)

/-- `rx123_to_add` (lines 721–744): project to the origin concept and the
level-3 concept, the latter renamed into the level-2 columns. -/
def rx123ToAdd (r : List RelRow) (c : List CRx) (rxIds : List Int) : List (CRx × CRx) :=
  pdDedup ((rx123T r c rxIds).map fun p => (p.1.2.1, p.2.2.2))

/-- `rx1234` (lines 746–760): three-hop paths (third concept not an
Ingredient, origin class different from the third's class, fourth concept an
Ingredient).  Unlike `rx123`, the frame is *not* projected or renamed: its
level-2 columns still hold the first intermediate concept. -/
def rx1234T (r : List RelRow) (c : List CRx) (rxIds : List Int) :
    List (HopRow × HopRow × HopRow) :=
  pdDedup ((((fsStMerge r c rxIds).filter fun p =>
    p.2.2.2.concept_class_id != "Ingredient" &&
      p.1.2.1.concept_class_id != p.2.2.2.concept_class_id).flatMap fun p =>
        ((tfT r c rxIds).filter fun t => t.2.1 == p.2.2.2).map fun t => (p.1, p.2, t)).filter
      fun q => q.2.2.2.2.concept_class_id == "Ingredient")

/-- `rx_all = pd.concat([rx123_to_add, rx1234]).drop_duplicates()` (line
762).  The two frames have different column sets; `concat` fills the gaps
with `NaN`, so a `rx123_to_add` row can never equal a `rx1234` row — the
disjoint union models that. -/
abbrev RxAllRow := Sum (CRx × CRx) (HopRow × HopRow × HopRow)

def rxAllT (r : List RelRow) (c : List CRx) (rxIds : List Int) : List RxAllRow :=
  pdDedup ((rx123ToAdd r c rxIds).map Sum.inl ++ (rx1234T r c rxIds).map Sum.inr)

/-- The `RxNorm_concept_id_1` column of a `rx_all` row (renamed to
`RxNorm_concept_id` for the merge with `standard_drugs`). -/
def originIdOf : RxAllRow → Int
  | .inl p => p.1.concept_id
  | .inr q => q.1.2.1.concept_id

/-- The origin (level-1) concept record of a `rx_all` row. -/
def originConceptOf : RxAllRow → CRx
  | .inl p => p.1
  | .inr q => q.1.2.1

/-- The level-2 columns of a `rx_all` row: the columns that the final table
renames to `RxNorm_concept_code/name/class_id`, i.e. the emitted
"ingredient".  For a `rx123_to_add` row this is the level-3 Ingredient; for
a `rx1234` row it is the first intermediate concept. -/
def ingSlotOf : RxAllRow → CRx
  | .inl p => p.2
  | .inr q => q.1.2.2

/-- One row of `standard_drugs_rxnorm_ingredients.csv.gz` (lines 765–788):
the report key, the origin product concept (`RxNorm_concept_id` plus the
retained `RxNorm_*_1` columns), the emitted ingredient-slot columns
(`RxNorm_concept_code/name/class_id`; the ingredient-slot *id* column
`RxNorm_concept_id_ing` is dropped), and, for a `rx1234`-shaped row, the
extra raw columns that `concat` carried along (`extra = none` for a
`rx123_to_add`-shaped row, whose extra columns are `NaN`). -/
structure StdIngRow where
  sid : String
  rxnorm_concept_id : Int
  origin_code : String
  origin_name : String
  origin_class : String
  rxnorm_concept_code : String
  rxnorm_concept_name : String
  rxnorm_concept_class_id : String
  extra : Option (HopRow × HopRow × HopRow)
deriving DecidableEq

def extraOf : RxAllRow → Option (HopRow × HopRow × HopRow)
  | .inl _ => none
  | .inr q => some q

def mkStdIngRow (sid : String) (x : RxAllRow) : StdIngRow :=
  { sid := sid
    rxnorm_concept_id := originIdOf x
    origin_code := (originConceptOf x).concept_code
    origin_name := (originConceptOf x).concept_name
    origin_class := (originConceptOf x).concept_class_id
    rxnorm_concept_code := (ingSlotOf x).concept_code
    rxnorm_concept_name := (ingSlotOf x).concept_name
    rxnorm_concept_class_id := (ingSlotOf x).concept_class_id
    extra := extraOf x }

/-- `std_ing` (lines 765–788): deduplicate the `(RxNorm_concept_id,
safetyreportid)` pairs of `standard_drugs`, left-join `rx_all` on the origin
id, drop the unmatched rows (`dropna(subset=["RxNorm_concept_id_ing"])` —
that column is non-null exactly on matched rows), drop that column, and
deduplicate.  `std` rows are `(RxNorm_concept_id, safetyreportid)`. -/
def stdIngT (std : List (Int × String)) (r : List RelRow) (c : List CRx)
    (rxIds : List Int) : List StdIngRow :=
  pdDedup ((pdDedup std).flatMap fun ps =>
    ((rxAllT r c rxIds).filter fun x => originIdOf x == ps.1).map fun x =>
      mkStdIngRow ps.2 x)

/-- The resolver over raw inputs: lines 533–544 deduplicate the edge list
(`r = concept_relationship[...].drop_duplicates()`) and build the standard
concept pool before any traversal. -/
def rx_all (rel : List RelRow) (concept : List ConceptRow) (rxIds : List Int) :
    List RxAllRow :=
  rxAllT (pdDedup rel) (cStep concept) rxIds

def std_ing (std : List (Int × String)) (rel : List RelRow) (concept : List ConceptRow)
    (rxIds : List Int) : List StdIngRow :=
  stdIngT std (pdDedup rel) (cStep concept) rxIds

/-- The path shape that justifies a `rx_all` row (stated over the raw edge
list).  An `inl` row is backed by a two-edge path from the origin to the
emitted Ingredient (whose class differs from the origin's); an `inr` row is
backed by a three-edge path whose final concept has class `Ingredient`,
while the emitted level-2 columns hold the concept one hop from the
origin. -/
def rxAllPathWitness (rel : List RelRow) : RxAllRow → Prop
  | .inl p =>
    ∃ e1 e2, e1 ∈ rel ∧ e2 ∈ rel ∧
      e1.concept_id_1 = p.1.concept_id ∧ e1.concept_id_2 = e2.concept_id_1 ∧
      e2.concept_id_2 = p.2.concept_id ∧
      p.2.concept_class_id = "Ingredient" ∧ p.1.concept_class_id ≠ p.2.concept_class_id
  | .inr q =>
    q.1.1 ∈ rel ∧ q.2.1.1 ∈ rel ∧ q.2.2.1 ∈ rel ∧
      q.1.1.concept_id_1 = q.1.2.1.concept_id ∧
      q.1.1.concept_id_2 = q.2.1.1.concept_id_1 ∧
      q.2.1.1.concept_id_2 = q.2.2.1.concept_id_1 ∧
      q.1.1.concept_id_2 = q.1.2.2.concept_id ∧
      q.2.2.2.2.concept_class_id = "Ingredient"

/-! ## MedDRA hierarchy resolution
(`step_standard_reactions_meddra_relationships`, lines 791–949)

`med` is the MedDRA slice of the concept table (projected to four columns
inside `all_meddra`, not deduplicated); `r` is the deduplicated edge list.
`first_rel/second_rel/third_rel` chain PT→HLT→HLGT→SOC level by level;
`pt_to_soc` then joins `standard_reactions` against `third_rel` on the
column named `MedDRA_concept_id_3` — which holds the HLGT-side id of the
HLGT→SOC edge.
-/

structure MedRow where
  concept_id : Int
  concept_code : String
  concept_name : String
  concept_class_id : String
deriving DecidableEq

def medOf (concept : List ConceptRow) : List MedRow :=
  (concept.filter fun x => x.vocabulary_id == "MedDRA").map
    fun x => ⟨x.concept_id, x.concept_code, x.concept_name, x.concept_class_id⟩

/-- One `all_meddra` row: `(relationship_id, level-1 concept, level-2
concept)`; the raw id columns are dropped by the source (line 829) and are
recoverable from the concept records. -/
abbrev AMRow := String × MedRow × MedRow

def allMeddraT (r : List RelRow) (m : List MedRow) : List AMRow :=
  r.flatMap fun e =>
    (m.filter fun x => x.concept_id == e.concept_id_1).flatMap fun m1 =>
      (m.filter fun x => x.concept_id == e.concept_id_2).map fun m2 =>
        (e.relationship_id, m1, m2)

/-- `first_rel` (lines 833–834): destination class `HLT`, self-loops
removed. -/
def firstRelT (r : List RelRow) (m : List MedRow) : List AMRow :=
  ((allMeddraT r m).filter fun x => x.2.2.concept_class_id == "HLT").filter
    fun x => x.2.1.concept_id != x.2.2.concept_id

/-- `second_rel` (lines 837–858): `all_meddra` rows whose source id occurs
among the (deduplicated) destination ids of `first_rel`, then destination
class `HLGT` and self-loop removal.  The inner merge against the
deduplicated one-column frame is a filter. -/
def secondRelT (r : List RelRow) (m : List MedRow) : List AMRow :=
  (((allMeddraT r m).filter fun x =>
    (pdDedup ((firstRelT r m).map fun y => y.2.2.concept_id)).contains
      x.2.1.concept_id).filter fun x => x.2.2.concept_class_id == "HLGT").filter
        fun x => x.2.1.concept_id != x.2.2.concept_id

/-- `third_rel` (lines 861–882): sources among `second_rel`'s destination
ids, destination class `SOC`, self-loops removed.  Its level-1 column is
renamed `MedDRA_concept_id_3` (the HLGT side) and its level-2 column
`MedDRA_concept_id_4` (the SOC side). -/
def thirdRelT (r : List RelRow) (m : List MedRow) : List AMRow :=
  (((allMeddraT r m).filter fun x =>
    (pdDedup ((secondRelT r m).map fun y => y.2.2.concept_id)).contains
      x.2.1.concept_id).filter fun x => x.2.2.concept_class_id == "SOC").filter
        fun x => x.2.1.concept_id != x.2.2.concept_id

/-- One row of `standard_reactions_meddra_soc.csv.gz`: the report key and
reaction concept id of a `standard_reactions` row, plus the matched
`third_rel` row. -/
abbrev PtSocRow := String × Int × AMRow

/-- `pt_to_soc` (lines 920–935): deduplicate the `(safetyreportid,
MedDRA_concept_id)` pairs of `standard_reactions`, inner-join `third_rel`
renamed so that the join column `MedDRA_concept_id` is `third_rel`'s
`MedDRA_concept_id_3` — the HLGT-side id — and deduplicate. -/
def ptToSocT (stdRx : List (String × Int)) (r : List RelRow) (m : List MedRow) :
    List PtSocRow :=
  pdDedup ((pdDedup stdRx).flatMap fun sc =>
    ((thirdRelT r m).filter fun t => t.2.1.concept_id == sc.2).map fun t =>
      (sc.1, sc.2, t))

def pt_to_soc (stdRx : List (String × Int)) (rel : List RelRow)
    (concept : List ConceptRow) : List PtSocRow :=
  ptToSocT stdRx (pdDedup rel) (medOf concept)

/-! ## Concrete vocabulary scenarios

Small inputs used to evaluate the resolvers: the spec's two-concept
ingredient scenario, chains of lengths 2–4, and the four-level reaction
hierarchy.
-/

/-- The spec's scenario: concept 1 "Aspirin 81mg" (Clinical Drug), concept 2
"Aspirin" (Ingredient), single edge 1 → 2. -/
def scenConcept2 : List ConceptRow :=
  [⟨1, "c1", "Aspirin 81mg", "Clinical Drug", "RxNorm", "S"⟩,
   ⟨2, "c2", "Aspirin", "Ingredient", "RxNorm", "S"⟩]

def scenRel2 : List RelRow := [⟨1, 2, "RxNorm has ing"⟩]

def scenStd : List (Int × String) := [(1, "R1")]

def scenRxIds : List Int := [1]

/-- A two-edge chain 1 → 2 → 3 ending in an Ingredient. -/
def chain3Concept : List ConceptRow :=
  [⟨1, "c1", "Aspirin 81mg", "Clinical Drug", "RxNorm", "S"⟩,
   ⟨2, "c2", "Aspirin 81mg Comp", "Clinical Drug Comp", "RxNorm", "S"⟩,
   ⟨3, "c3", "Aspirin", "Ingredient", "RxNorm", "S"⟩]

def chain3Rel : List RelRow := [⟨1, 2, "Consists of"⟩, ⟨2, 3, "RxNorm has ing"⟩]

/-- A three-edge chain 1 → 2 → 3 → 4 ending in an Ingredient, with the
middle concepts not Ingredients. -/
def chain4Concept : List ConceptRow :=
  [⟨1, "c1", "Aspirin 81mg", "Clinical Drug", "RxNorm", "S"⟩,
   ⟨2, "c2", "Aspirin 81mg Comp", "Clinical Drug Comp", "RxNorm", "S"⟩,
   ⟨3, "c3", "Aspirin Branded", "Branded Drug", "RxNorm", "S"⟩,
   ⟨4, "c4", "Aspirin", "Ingredient", "RxNorm", "S"⟩]

def chain4Rel : List RelRow :=
  [⟨1, 2, "Consists of"⟩, ⟨2, 3, "Tradename of"⟩, ⟨3, 4, "RxNorm has ing"⟩]

/-- A four-edge chain 1 → 2 → 3 → 4 → 5 whose only Ingredient is the final
concept, four hops from the origin (well within the claimed bound of 6). -/
def chain5Concept : List ConceptRow :=
  [⟨1, "c1", "n1", "Clinical Drug", "RxNorm", "S"⟩,
   ⟨2, "c2", "n2", "Branded Drug", "RxNorm", "S"⟩,
   ⟨3, "c3", "n3", "Branded Drug Form", "RxNorm", "S"⟩,
   ⟨4, "c4", "n4", "Clinical Drug Form", "RxNorm", "S"⟩,
   ⟨5, "c5", "n5", "Ingredient", "RxNorm", "S"⟩]

def chain5Rel : List RelRow :=
  [⟨1, 2, "e12"⟩, ⟨2, 3, "e23"⟩, ⟨3, 4, "e34"⟩, ⟨4, 5, "e45"⟩]

/-- The spec's reaction hierarchy: PT "Headache" (10) → HLT (11) → HLGT (12)
→ SOC "Nervous system disorders" (13). -/
def hierConcept : List ConceptRow :=
  [⟨10, "m10", "Headache", "PT", "MedDRA", "S"⟩,
   ⟨11, "m11", "Headaches", "HLT", "MedDRA", "S"⟩,
   ⟨12, "m12", "Headaches HLGT", "HLGT", "MedDRA", "S"⟩,
   ⟨13, "m13", "Nervous system disorders", "SOC", "MedDRA", "S"⟩]

def hierRel : List RelRow :=
  [⟨10, 11, "Is a"⟩, ⟨11, 12, "Is a"⟩, ⟨12, 13, "Is a"⟩]

def hierStdRx : List (String × Int) := [("R1", 10)]

/-- A hierarchy with one HLT → HLGT chain whose HLGT (3) has edges to two
different SOCs (4 and 5); the reaction table row carries concept id 3. -/
def twoSocConcept : List ConceptRow :=
  [⟨1, "m1", "n1", "PT", "MedDRA", "S"⟩,
   ⟨2, "m2", "n2", "HLT", "MedDRA", "S"⟩,
   ⟨3, "m3", "n3", "HLGT", "MedDRA", "S"⟩,
   ⟨4, "m4", "n4", "SOC", "MedDRA", "S"⟩,
   ⟨5, "m5", "n5", "SOC", "MedDRA", "S"⟩]

def twoSocRel : List RelRow :=
  [⟨1, 2, "Is a"⟩, ⟨2, 3, "Is a"⟩, ⟨3, 4, "Is a"⟩, ⟨3, 5, "Is a"⟩]

def twoSocStdRx : List (String × Int) := [("R1", 3)]

/-! ## Concrete join-engine tables

Small synthetic tables with shared, duplicated and missing keys, used to
instantiate the join-engine theorems.
-/

def patientWit : List (Option SidKey × Nat) :=
  [(some "1", 10), (some "2", 11), (some "1", 13)]

def reportWit : List (Option SidKey × Nat) :=
  [(some "1", 20), (some "1", 21), (some "3", 22), (some "2", 23), (none, 24)]

def seriousWit : List (Option SidKey × Nat) := [(some "2", 30), (some "1", 31)]

def reporterWit : List (Option SidKey × Nat) := [(some "1", 40)]

/-- A report-side row whose key never occurs on the patient side: dropped by
the streaming outer join, kept by the in-memory outer join. -/
def patientOnly : List (Option SidKey × Nat) := [(some "1", 0)]

def reportOnly : List (Option SidKey × Nat) := [(some "2", 0)]

/-- A single-row table whose only row carries a null key: an unchunked
pandas merge matches `NA` keys of both sides to each other, while the
streaming join's `dropna`-ed id set and `_filter_by_ids` drop such rows. -/
def nullKeyTable : List (Option SidKey × Nat) := [(none, 0)]

def drugWit : List DrugMappedRow := [⟨"A", "aspirin 81mg", "aspirin"⟩]

def adrWit : List AdrMappedRow := [⟨"B", "Headache", 10, "m10", some 13, some "m13", some "Nervous system disorders"⟩]

/-! ## Properties of pandas-style deduplication -/

theorem mem_of_mem_pdDedupByAux [DecidableEq κ] (f : α → κ) (seen : List κ)
    (l : List α) (a : α) (h : a ∈ pdDedupByAux f seen l) : a ∈ l ∧ f a ∉ seen := by
  induction l generalizing seen with
  | nil => simp [pdDedupByAux] at h
  | cons x xs ih =>
    by_cases hx : f x ∈ seen
    · rw [pdDedupByAux, if_pos hx] at h
      rcases ih seen h with ⟨h1, h2⟩
      exact ⟨List.mem_cons_of_mem x h1, h2⟩
    · rw [pdDedupByAux, if_neg hx] at h
      rcases List.mem_cons.mp h with rfl | h
      · exact ⟨List.mem_cons_self a xs, hx⟩
      · rcases ih (f x :: seen) h with ⟨h1, h2⟩
        simp only [List.mem_cons, not_or] at h2
        exact ⟨List.mem_cons_of_mem x h1, h2.2⟩

theorem mem_of_mem_pdDedupBy [DecidableEq κ] (f : α → κ) (l : List α) (a : α)
    (h : a ∈ pdDedupBy f l) : a ∈ l :=
  (mem_of_mem_pdDedupByAux f [] l a h).1

theorem mem_pdDedupAux [DecidableEq α] (seen : List α) (l : List α) (a : α) :
    a ∈ pdDedupByAux id seen l ↔ a ∈ l ∧ a ∉ seen := by
  induction l generalizing seen with
  | nil => simp [pdDedupByAux]
  | cons x xs ih =>
    by_cases hx : (id x : α) ∈ seen
    · simp only [pdDedupByAux, if_pos hx, ih, List.mem_cons]
      constructor
      · rintro ⟨h1, h2⟩; exact ⟨Or.inr h1, h2⟩
      · rintro ⟨h1 | h1, h2⟩
        · subst h1; exact absurd hx h2
        · exact ⟨h1, h2⟩
    · simp only [pdDedupByAux, if_neg hx, List.mem_cons, ih]
      constructor
      · rintro (rfl | ⟨h1, h2⟩)
        · exact ⟨Or.inl rfl, hx⟩
        · simp only [id, List.mem_cons, not_or] at h2
          exact ⟨Or.inr h1, h2.2⟩
      · rintro ⟨rfl | h1, h2⟩
        · exact Or.inl rfl
        · by_cases hax : a = x
          · subst hax; exact Or.inl rfl
          · exact Or.inr ⟨h1, by simp [id, hax, h2]⟩

theorem mem_pdDedup [DecidableEq α] (l : List α) (a : α) :
    a ∈ pdDedup l ↔ a ∈ l := by
  simp [pdDedup, pdDedupBy, mem_pdDedupAux]

theorem keys_nodup_pdDedupByAux [DecidableEq κ] (f : α → κ) (seen : List κ) (l : List α) :
    ((pdDedupByAux f seen l).map f).Nodup := by
  induction l generalizing seen with
  | nil => simp [pdDedupByAux]
  | cons x xs ih =>
    by_cases hx : f x ∈ seen
    · simpa [pdDedupByAux, hx] using ih seen
    · simp only [pdDedupByAux, if_neg hx, List.map_cons, List.nodup_cons]
      refine ⟨?_, ih (f x :: seen)⟩
      intro hmem
      rcases List.mem_map.mp hmem with ⟨b, hb, hfb⟩
      rcases mem_of_mem_pdDedupByAux f _ xs b hb with ⟨_, hnot⟩
      exact hnot (by simp [hfb])

theorem nodup_pdDedupBy [DecidableEq κ] (f : α → κ) (l : List α) :
    (pdDedupBy f l).Nodup :=
  (keys_nodup_pdDedupByAux f [] l).of_map f

theorem nodup_pdDedup [DecidableEq α] (l : List α) : (pdDedup l).Nodup :=
  nodup_pdDedupBy id l

theorem pdDedupByAux_append_mem [DecidableEq κ] (f : α → κ) (seen : List κ)
    (l : List α) (e : α) (he : f e ∈ l.map f ∨ f e ∈ seen) :
    pdDedupByAux f seen (l ++ [e]) = pdDedupByAux f seen l := by
  induction l generalizing seen with
  | nil =>
    rcases he with h | h
    · simp at h
    · simp [pdDedupByAux, h]
  | cons x xs ih =>
    by_cases hx : f x ∈ seen
    · simp only [List.cons_append, pdDedupByAux, if_pos hx]
      refine ih seen ?_
      rcases he with h | h
      · simp only [List.map_cons, List.mem_cons] at h
        rcases h with h | h
        · exact Or.inr (h ▸ hx)
        · exact Or.inl h
      · exact Or.inr h
    · simp only [List.cons_append, pdDedupByAux, if_neg hx]
      congr 1
      refine ih (f x :: seen) ?_
      rcases he with h | h
      · simp only [List.map_cons, List.mem_cons] at h
        rcases h with h | h
        · exact Or.inr (by simp [h])
        · exact Or.inl h
      · exact Or.inr (by simp [h])

/-- Appending a row whose dedup key already occurs does not change the
deduplicated table (pandas `drop_duplicates` keeps the first occurrence). -/
theorem pdDedup_append_mem [DecidableEq α] (l : List α) (e : α) (he : e ∈ l) :
    pdDedup (l ++ [e]) = pdDedup l :=
  pdDedupByAux_append_mem id [] l e (Or.inl (by simpa using he))

/-! ## Properties of `slug_key` -/

theorem map_fix_of_forall {f : Char → Char} {l : List Char}
    (h : ∀ c ∈ l, f c = c) : l.map f = l := by
  induction l with
  | nil => rfl
  | cons a as ih =>
    simp only [List.map_cons, h a (List.mem_cons_self a as)]
    rw [ih fun c hc => h c (List.mem_cons_of_mem a hc)]

theorem isPySpace_false_of_isLowerAlnum {c : Char} (h : isLowerAlnum c = true) :
    isPySpace c = false := by
  simp only [isLowerAlnum, Bool.or_eq_true, Bool.and_eq_true, decide_eq_true_eq] at h
  simp only [isPySpace, Bool.or_eq_false_iff, beq_eq_false_iff_ne, ne_eq]
  rcases h with ⟨h1, h2⟩ | ⟨h1, h2⟩
  all_goals
    refine ⟨⟨⟨⟨⟨?_, ?_⟩, ?_⟩, ?_⟩, ?_⟩, ?_⟩
  all_goals
    rintro rfl
  all_goals
    revert h1 h2
    decide

theorem pyLowerChar_fix {c : Char} (h : isLowerAlnum c = true ∨ c = ' ') :
    pyLowerChar c = c := by
  rw [pyLowerChar, if_neg]
  rcases h with h | rfl
  · simp only [isLowerAlnum, Bool.or_eq_true, Bool.and_eq_true, decide_eq_true_eq] at h
    rintro ⟨hA, hZ⟩
    rcases h with ⟨h1, _⟩ | ⟨_, h2⟩
    · exact absurd hZ (not_le.mpr (lt_of_lt_of_le (by decide : ('Z' : Char) < 'a') h1))
    · exact absurd hA (not_le.mpr (lt_of_le_of_lt h2 (by decide : ('9' : Char) < 'A')))
  · decide

theorem keepOrSpace_fix {c : Char} (h : isLowerAlnum c = true ∨ c = ' ') :
    keepOrSpace c = c := by
  rcases h with h | rfl
  · rw [keepOrSpace, if_pos]
    simp [h]
  · decide

theorem mapped_charset (l : List Char) :
    ∀ c ∈ (l.map pyLowerChar).map keepOrSpace, (isLowerAlnum c || isPySpace c) = true := by
  intro c hc
  rcases List.mem_map.mp hc with ⟨d, _, rfl⟩
  rw [keepOrSpace]
  by_cases h : (isLowerAlnum d || isPySpace d) = true
  · rw [if_pos h]; exact h
  · rw [if_neg h]; decide

theorem mem_collapseWsAux {c : Char} :
    ∀ (l : List Char) (b : Bool), c ∈ collapseWsAux b l →
      (c ∈ l ∧ isPySpace c = false) ∨ c = ' '
  | [], b => by simp [collapseWsAux]
  | a :: as, b => by
    intro h
    rw [collapseWsAux] at h
    by_cases ha : isPySpace a = true
    · rw [if_pos ha] at h
      cases b with
      | true =>
        rcases mem_collapseWsAux as true h with ⟨h1, h2⟩ | h1
        · exact Or.inl ⟨List.mem_cons_of_mem a h1, h2⟩
        · exact Or.inr h1
      | false =>
        rw [if_neg (by decide)] at h
        rcases List.mem_cons.mp h with rfl | h
        · exact Or.inr rfl
        · rcases mem_collapseWsAux as true h with ⟨h1, h2⟩ | h1
          · exact Or.inl ⟨List.mem_cons_of_mem a h1, h2⟩
          · exact Or.inr h1
    · rw [if_neg ha] at h
      rcases List.mem_cons.mp h with rfl | h
      · exact Or.inl ⟨List.mem_cons_self c as, Bool.of_not_eq_true ha⟩
      · rcases mem_collapseWsAux as false h with ⟨h1, h2⟩ | h1
        · exact Or.inl ⟨List.mem_cons_of_mem a h1, h2⟩
        · exact Or.inr h1

theorem mem_rstripWs {c : Char} : ∀ l : List Char, c ∈ rstripWs l → c ∈ l
  | [] => fun h => h
  | a :: as => by
    intro h
    rw [rstripWs] at h
    rcases hr : rstripWs as with _ | ⟨d, ds⟩
    · rw [hr] at h
      by_cases ha : isPySpace a = true
      · rw [if_pos ha] at h; cases h
      · rw [if_neg ha] at h
        rcases List.mem_singleton.mp h with rfl
        exact List.mem_cons_self c as
    · rw [hr] at h
      rcases List.mem_cons.mp h with rfl | h
      · exact List.mem_cons_self c as
      · exact List.mem_cons_of_mem a (mem_rstripWs as (hr ▸ h))

theorem mem_stripWs {c : Char} (l : List Char) (h : c ∈ stripWs l) : c ∈ l :=
  (List.dropWhile_sublist isPySpace).mem (mem_rstripWs _ h)

theorem slugCore_charset (l : List Char) :
    ∀ c ∈ slugCore l, isLowerAlnum c = true ∨ c = ' ' := by
  intro c hc
  have h1 := mem_stripWs _ hc
  rcases mem_collapseWsAux _ false h1 with ⟨h2, h3⟩ | h2
  · have := mapped_charset l c h2
    rcases Bool.or_eq_true _ _ |>.mp this with h | h
    · exact Or.inl h
    · rw [h3] at h; cases h
  · exact Or.inr h2

theorem hasDoubleSpace_of_cons {a : Char} {l : List Char}
    (h : hasDoubleSpace (a :: l) = false) : hasDoubleSpace l = false := by
  cases l with
  | nil => rfl
  | cons b t =>
    rw [hasDoubleSpace, Bool.or_eq_false_iff] at h
    exact h.2

theorem collapseWsAux_noDouble :
    ∀ (l : List Char) (b : Bool),
      hasDoubleSpace (collapseWsAux b l) = false ∧
        (b = true → (collapseWsAux b l).head? ≠ some ' ')
  | [], b => by
    cases b <;> refine ⟨rfl, ?_⟩ <;> intro hb hh <;> cases hh
  | a :: as, b => by
    rw [collapseWsAux]
    by_cases ha : isPySpace a = true
    · rw [if_pos ha]
      cases b with
      | true =>
        rw [if_pos rfl]
        exact collapseWsAux_noDouble as true
      | false =>
        rw [if_neg (by decide)]
        rcases collapseWsAux_noDouble as true with ⟨h1, h2⟩
        refine ⟨?_, fun h => by cases h⟩
        rcases hc : collapseWsAux true as with _ | ⟨d, ds⟩
        · rfl
        · rw [hasDoubleSpace, Bool.or_eq_false_iff]
          refine ⟨?_, hc ▸ h1⟩
          have hd : d ≠ ' ' := by
            intro hd
            exact (h2 rfl) (by rw [hc, hd]; rfl)
          simp [hd]
    · rw [if_neg ha]
      rcases collapseWsAux_noDouble as false with ⟨h1, _⟩
      have hane : a ≠ ' ' := by
        intro hEq
        rw [hEq] at ha
        exact ha rfl
      constructor
      · rcases hc : collapseWsAux false as with _ | ⟨d, ds⟩
        · rfl
        · rw [hasDoubleSpace, Bool.or_eq_false_iff]
          exact ⟨by simp [hane], hc ▸ h1⟩
      · intro _
        simp [hane]

theorem dropWhile_noDouble {p : Char → Bool} :
    ∀ l : List Char, hasDoubleSpace l = false →
      hasDoubleSpace (l.dropWhile p) = false
  | [], h => h
  | a :: as, h => by
    rw [List.dropWhile_cons]
    by_cases hp : p a = true
    · rw [if_pos hp]
      exact dropWhile_noDouble as (hasDoubleSpace_of_cons h)
    · rw [if_neg hp]
      exact h

theorem head?_dropWhile_not {p : Char → Bool} :
    ∀ {l : List Char} {a : Char}, (l.dropWhile p).head? = some a → p a = false := by
  intro l
  induction l with
  | nil => intro a h; cases h
  | cons b bs ih =>
    intro a h
    rw [List.dropWhile_cons] at h
    by_cases hp : p b = true
    · rw [if_pos hp] at h
      exact ih h
    · rw [if_neg hp] at h
      rcases Option.some.inj h with rfl
      exact Bool.of_not_eq_true hp

theorem rstripWs_empty_or_head : ∀ l : List Char,
    rstripWs l = [] ∨ (rstripWs l).head? = l.head?
  | [] => Or.inl rfl
  | a :: as => by
    rw [rstripWs]
    rcases hr : rstripWs as with _ | ⟨d, ds⟩
    · by_cases ha : isPySpace a = true
      · rw [if_pos ha]; exact Or.inl rfl
      · rw [if_neg ha]; exact Or.inr rfl
    · exact Or.inr rfl

theorem rstripWs_noDouble : ∀ l : List Char,
    hasDoubleSpace l = false → hasDoubleSpace (rstripWs l) = false
  | [], h => h
  | a :: as, h => by
    rw [rstripWs]
    rcases hr : rstripWs as with _ | ⟨d, ds⟩
    · by_cases ha : isPySpace a = true
      · rw [if_pos ha]; rfl
      · rw [if_neg ha]; rfl
    · have has := rstripWs_noDouble as (hasDoubleSpace_of_cons h)
      rw [hr] at has
      rw [hasDoubleSpace, Bool.or_eq_false_iff]
      refine ⟨?_, has⟩
      rcases rstripWs_empty_or_head as with he | he
      · rw [he] at hr; cases hr
      · rw [hr] at he
        cases as with
        | nil => cases he
        | cons b bs =>
          rcases Option.some.inj he with rfl
          cases hab : (a == ' ' && d == ' ') with
          | false => rfl
          | true =>
            rcases Bool.and_eq_true _ _ |>.mp hab with ⟨h1, h2⟩
            rw [hasDoubleSpace, h1, h2] at h
            cases h

theorem rstripWs_getLast_not_space : ∀ {l : List Char} {a : Char},
    (rstripWs l).getLast? = some a → isPySpace a = false := by
  intro l
  induction l with
  | nil => intro a h; cases h
  | cons c cs ih =>
    intro a h
    rw [rstripWs] at h
    rcases hr : rstripWs cs with _ | ⟨d, ds⟩
    · rw [hr] at h
      by_cases hc : isPySpace c = true
      · rw [if_pos hc] at h; cases h
      · rw [if_neg hc] at h
        rcases Option.some.inj ((List.getLast?_singleton c) ▸ h) with rfl
        exact Bool.of_not_eq_true hc
    · rw [hr] at h
      rw [List.getLast?_cons_cons] at h
      exact ih (hr ▸ h)

theorem collapseWsAux_fix :
    ∀ l : List Char, (∀ c ∈ l, isPySpace c = false ∨ c = ' ') →
      hasDoubleSpace l = false →
      collapseWsAux false l = l ∧ (l.head? ≠ some ' ' → collapseWsAux true l = l)
  | [], _, _ => ⟨rfl, fun _ => rfl⟩
  | a :: as, hcs, hnd => by
    have has := fun c hc => hcs c (List.mem_cons_of_mem a hc)
    rcases hcs a (List.mem_cons_self a as) with ha | rfl
    · rcases collapseWsAux_fix as has (hasDoubleSpace_of_cons hnd) with ⟨ih1, _⟩
      constructor
      · rw [collapseWsAux, if_neg (by simp [ha]), ih1]
      · intro _
        rw [collapseWsAux, if_neg (by simp [ha]), ih1]
    · constructor
      · rw [collapseWsAux, if_pos (by decide), if_neg (by decide)]
        rcases collapseWsAux_fix as has (hasDoubleSpace_of_cons hnd) with ⟨_, ih2⟩
        rw [ih2]
        intro hh
        cases as with
        | nil => cases hh
        | cons b bs =>
          rcases Option.some.inj hh with rfl
          rw [hasDoubleSpace] at hnd
          simp at hnd
      · intro hh
        exact absurd rfl hh

theorem dropWhile_fix {l : List Char} (h : l.head? ≠ some ' ')
    (hcs : ∀ c ∈ l, isPySpace c = false ∨ c = ' ') :
    l.dropWhile isPySpace = l := by
  cases l with
  | nil => rfl
  | cons a as =>
    rcases hcs a (List.mem_cons_self a as) with ha | rfl
    · rw [List.dropWhile_cons, if_neg (by simp [ha])]
    · exact absurd rfl h

theorem rstripWs_fix : ∀ l : List Char, l.getLast? ≠ some ' ' →
    (∀ c ∈ l, isPySpace c = false ∨ c = ' ') → rstripWs l = l
  | [], _, _ => rfl
  | a :: as, hl, hcs => by
    cases as with
    | nil =>
      rcases hcs a (List.mem_cons_self a []) with ha | rfl
      · rw [rstripWs, rstripWs, if_neg (by simp [ha])]
      · exact absurd rfl hl
    | cons b bs =>
      have ih := rstripWs_fix (b :: bs) (by rwa [List.getLast?_cons_cons] at hl)
        (fun c hc => hcs c (List.mem_cons_of_mem a hc))
      rw [rstripWs, ih]

theorem slugCore_noDouble (l : List Char) : hasDoubleSpace (slugCore l) = false :=
  rstripWs_noDouble _ (dropWhile_noDouble _ (collapseWsAux_noDouble _ false).1)

theorem slugCore_head (l : List Char) : (slugCore l).head? ≠ some ' ' := by
  intro h
  rcases rstripWs_empty_or_head ((collapseWs ((l.map pyLowerChar).map keepOrSpace)).dropWhile isPySpace) with he | he
  · rw [slugCore, stripWs] at h
    rw [he] at h
    cases h
  · rw [slugCore, stripWs] at h
    rw [he] at h
    have := head?_dropWhile_not h
    rw [show isPySpace ' ' = true from rfl] at this
    cases this

theorem slugCore_last (l : List Char) : (slugCore l).getLast? ≠ some ' ' := by
  intro h
  have := rstripWs_getLast_not_space h
  rw [show isPySpace ' ' = true from rfl] at this
  cases this

theorem slugCore_charset_or (l : List Char) :
    ∀ c ∈ slugCore l, isPySpace c = false ∨ c = ' ' := by
  intro c hc
  rcases slugCore_charset l c hc with h | rfl
  · exact Or.inl (isPySpace_false_of_isLowerAlnum h)
  · exact Or.inr rfl

theorem slugCore_idempotent (l : List Char) : slugCore (slugCore l) = slugCore l := by
  have hcs := slugCore_charset l
  have hcs2 := slugCore_charset_or l
  have hmap1 : (slugCore l).map pyLowerChar = slugCore l :=
    map_fix_of_forall fun c hc => pyLowerChar_fix (hcs c hc)
  have hmap2 : (slugCore l).map keepOrSpace = slugCore l :=
    map_fix_of_forall fun c hc => keepOrSpace_fix (hcs c hc)
  have hcol : collapseWs (slugCore l) = slugCore l :=
    (collapseWsAux_fix (slugCore l) hcs2 (slugCore_noDouble l)).1
  calc slugCore (slugCore l)
      = stripWs (collapseWs (((slugCore l).map pyLowerChar).map keepOrSpace)) := rfl
    _ = stripWs (collapseWs (slugCore l)) := by rw [hmap1, hmap2]
    _ = stripWs (slugCore l) := by rw [hcol]
    _ = rstripWs ((slugCore l).dropWhile isPySpace) := rfl
    _ = rstripWs (slugCore l) := by rw [dropWhile_fix (slugCore_head l) hcs2]
    _ = slugCore l := rstripWs_fix _ (slugCore_last l) hcs2

/-- C10: `slug_key` is a canonical form.  For every string, the output
contains only ASCII lowercase letters, digits and single interior spaces,
with no leading or trailing whitespace (`isCanonSlug`); `slug_key` is
idempotent; and `slug_key` of `None` is `None`. -/
theorem c10_slug_key_canonical :
    (∀ l : List Char, isCanonSlug (slugCore l) = true ∧ slugCore (slugCore l) = slugCore l) ∧
      (∀ s : Option (List Char), slug_key (slug_key s) = slug_key s) ∧
      slug_key none = none := by
  refine ⟨fun l => ⟨?_, slugCore_idempotent l⟩, fun s => ?_, rfl⟩
  · rw [isCanonSlug]
    simp only [Bool.and_eq_true, List.all_eq_true, Bool.or_eq_true, beq_iff_eq,
      Bool.not_eq_true', bne_iff_ne, ne_eq]
    refine ⟨⟨⟨?_, slugCore_noDouble l⟩, slugCore_head l⟩, slugCore_last l⟩
    intro c hc
    exact slugCore_charset l c hc
  · cases s with
    | none => rfl
    | some l =>
      show slug_key (some (slugCore l)) = some (slugCore l)
      rw [slug_key, slugCore_idempotent l]

/-! ## Properties of the streaming join -/

theorem joinOn_nil (how : JoinType) (hhow : how = .inner ∨ how = .left)
    (R : List (Option SidKey × β)) :
    joinOn how ([] : List (Option SidKey × α)) R = [] := by
  rcases hhow with rfl | rfl <;> rfl

theorem joinOn_append (how : JoinType) (hhow : how = .inner ∨ how = .left)
    (L1 L2 : List (Option SidKey × α)) (R : List (Option SidKey × β)) :
    joinOn how (L1 ++ L2) R = joinOn how L1 R ++ joinOn how L2 R := by
  rcases hhow with rfl | rfl <;> simp only [joinOn, List.flatMap_append]

theorem filter_filter_absorb {p q : α → Bool} (h : ∀ a, q a = true → p a = true) :
    ∀ l : List α, (l.filter p).filter q = l.filter q
  | [] => rfl
  | a :: as => by
    rw [List.filter_cons]
    by_cases hp : p a = true
    · rw [if_pos hp, List.filter_cons, List.filter_cons, filter_filter_absorb h as]
    · rw [if_neg hp, filter_filter_absorb h as, List.filter_cons,
        if_neg fun hq => hp (h a hq)]

theorem matchFilter_of_filterByIds {ids : List SidKey} {v : SidKey}
    (hv : v ∈ ids) (R : List (Option SidKey × β)) :
    ((filterByIds ids R).filter fun rr => keyMatches (some v) rr.1) =
      R.filter fun rr => keyMatches (some v) rr.1 := by
  rw [filterByIds]
  refine filter_filter_absorb (fun rr hq => ?_) R
  rcases hr : rr.1 with _ | rv <;> rw [hr] at hq
  · cases hq
  · have hveq : v = rv := by
      have : (v == rv) = true := hq
      exact eq_of_beq this
    subst hveq
    exact List.elem_eq_true_of_mem hv

theorem joinOn_filterByIds (how : JoinType) (hhow : how = .inner ∨ how = .left)
    {ids : List SidKey} (L : List (Option SidKey × α)) (R : List (Option SidKey × β))
    (hL : keysSubset ids L) :
    joinOn how L (filterByIds ids R) = joinOn how L R := by
  rcases hhow with rfl | rfl
  · simp only [joinOn]
    refine List.flatMap_congr fun l hl => ?_
    rcases hL l hl with ⟨v, hv, hkey⟩
    rw [hkey, matchFilter_of_filterByIds hv R]
  · simp only [joinOn]
    refine List.flatMap_congr fun l hl => ?_
    rcases hL l hl with ⟨v, hv, hkey⟩
    rw [hkey, matchFilter_of_filterByIds hv R]

theorem keysSubset_joinOn (how : JoinType) (hhow : how = .inner ∨ how = .left)
    {ids : List SidKey} (L : List (Option SidKey × α)) (R : List (Option SidKey × β))
    (hL : keysSubset ids L) : keysSubset ids (joinOn how L R) := by
  rcases hhow with rfl | rfl
  · intro row hrow
    simp only [joinOn, List.mem_flatMap] at hrow
    rcases hrow with ⟨l, hl, hrow⟩
    rcases List.mem_map.mp hrow with ⟨rr, _, rfl⟩
    exact hL l hl
  · intro row hrow
    simp only [joinOn, List.mem_flatMap] at hrow
    rcases hrow with ⟨l, hl, hrow⟩
    by_cases hms : (R.filter fun rr => keyMatches l.1 rr.1).isEmpty = true
    · rw [if_pos hms] at hrow
      rcases List.mem_singleton.mp hrow with rfl
      exact hL l hl
    · rw [if_neg hms] at hrow
      rcases List.mem_map.mp hrow with ⟨rr, _, rfl⟩
      exact hL l hl

theorem keysSubset_map_fst {ids : List SidKey} {L : List (Option SidKey × α)}
    {f : Option SidKey × α → Option SidKey × β} (hf : ∀ r, (f r).1 = r.1)
    (hL : keysSubset ids L) : keysSubset ids (L.map f) := by
  intro row hrow
  rcases List.mem_map.mp hrow with ⟨r0, hr0, rfl⟩
  rcases hL r0 hr0 with ⟨v, hv, hkey⟩
  exact ⟨v, hv, by rw [hf r0]; exact hkey⟩

theorem padJoin_nil (how : JoinType) (hhow : how = .inner ∨ how = .left)
    (dflt : π) (R : List (Option SidKey × β)) :
    padJoin how dflt ([] : List (Option SidKey × π)) R = [] := by
  rw [padJoin, joinOn_nil how hhow R, List.map_nil]

theorem padJoin_append (how : JoinType) (hhow : how = .inner ∨ how = .left)
    (dflt : π) (L1 L2 : List (Option SidKey × π)) (R : List (Option SidKey × β)) :
    padJoin how dflt (L1 ++ L2) R = padJoin how dflt L1 R ++ padJoin how dflt L2 R := by
  rw [padJoin, joinOn_append how hhow L1 L2 R, List.map_append]
  rfl

theorem padJoin_filterByIds (how : JoinType) (hhow : how = .inner ∨ how = .left)
    {ids : List SidKey} (dflt : π) (L : List (Option SidKey × π))
    (R : List (Option SidKey × β)) (hL : keysSubset ids L) :
    padJoin how dflt L (filterByIds ids R) = padJoin how dflt L R := by
  rw [padJoin, padJoin, joinOn_filterByIds how hhow L R hL]

theorem keysSubset_padJoin (how : JoinType) (hhow : how = .inner ∨ how = .left)
    {ids : List SidKey} (dflt : π) (L : List (Option SidKey × π))
    (R : List (Option SidKey × β)) (hL : keysSubset ids L) :
    keysSubset ids (padJoin how dflt L R) :=
  keysSubset_map_fst (fun _ => rfl) (keysSubset_joinOn how hhow L R hL)

theorem chainJoin_nil (how : JoinType) (hhow : how = .inner ∨ how = .left)
    (R : List (Option SidKey × β)) (S : List (Option SidKey × γ))
    (T : List (Option SidKey × δ)) :
    chainJoin how ([] : List (Option SidKey × α)) R S T = [] := by
  rw [chainJoin, joinOn_nil how hhow R, padJoin_nil how hhow _ S, padJoin_nil how hhow _ T]

theorem chainJoin_append (how : JoinType) (hhow : how = .inner ∨ how = .left)
    (L1 L2 : List (Option SidKey × α)) (R : List (Option SidKey × β))
    (S : List (Option SidKey × γ)) (T : List (Option SidKey × δ)) :
    chainJoin how (L1 ++ L2) R S T = chainJoin how L1 R S T ++ chainJoin how L2 R S T := by
  rw [chainJoin, joinOn_append how hhow L1 L2 R, padJoin_append how hhow _ _ _ S,
    padJoin_append how hhow _ _ _ T]
  rfl

theorem chainJoin_filterByIds (how : JoinType) (hhow : how = .inner ∨ how = .left)
    {ids : List SidKey} (P : List (Option SidKey × α)) (R : List (Option SidKey × β))
    (S : List (Option SidKey × γ)) (T : List (Option SidKey × δ))
    (hP : keysSubset ids P) :
    chainJoin how P (filterByIds ids R) (filterByIds ids S) (filterByIds ids T) =
      chainJoin how P R S T := by
  rw [chainJoin, chainJoin, joinOn_filterByIds how hhow P R hP]
  have hk1 : keysSubset ids (joinOn how P R) := keysSubset_joinOn how hhow P R hP
  rw [padJoin_filterByIds how hhow _ _ S hk1]
  have hk2 : keysSubset ids (padJoin how (none, none) (joinOn how P R) S) :=
    keysSubset_padJoin how hhow _ _ S hk1
  rw [padJoin_filterByIds how hhow _ _ T hk2]

theorem chunksOfFuel_flatten (n : Nat) :
    ∀ (fuel : Nat) (l : List α), l.length ≤ fuel → (chunksOfFuel n fuel l).flatten = l
  | fuel, [], _ => by cases fuel <;> rfl
  | 0, x :: xs, h => by simp at h
  | fuel + 1, x :: xs, h => by
    have hxs : xs.length ≤ fuel := by
      simp only [List.length_cons] at h
      omega
    have hlen : (xs.drop (n - 1)).length ≤ fuel := by
      rw [List.length_drop]
      omega
    rw [chunksOfFuel, List.flatten_cons, chunksOfFuel_flatten n fuel (xs.drop (n - 1)) hlen]
    rw [List.cons_append, List.take_append_drop]

theorem chunksOf_flatten (n : Nat) (l : List α) : (chunksOf n l).flatten = l :=
  chunksOfFuel_flatten n l.length l le_rfl

theorem chainJoin_flatten (how : JoinType) (hhow : how = .inner ∨ how = .left)
    (chs : List (List (Option SidKey × α))) (R : List (Option SidKey × β))
    (S : List (Option SidKey × γ)) (T : List (Option SidKey × δ)) :
    (chs.flatMap fun ch => chainJoin how ch R S T) = chainJoin how chs.flatten R S T := by
  induction chs with
  | nil => rw [List.flatMap_nil, List.flatten_nil, chainJoin_nil how hhow]
  | cons ch chs ih =>
    rw [List.flatMap_cons, List.flatten_cons, chainJoin_append how hhow, ih]

/-- For inner and left joins over a patient table without null keys, the
chunk-wise re-filtered streaming join is extensionally the in-memory join:
every chunk's filtered slices contain all rows matching the chunk's keys,
and the chained joins distribute over chunk concatenation.  The null-key
restriction is necessary: the chunk id set is built with `dropna` and
`_filter_by_ids` drops null-keyed rows, while an unchunked pandas merge
matches `NA` keys to each other (`streamMerge_null_keys_diverge`). -/
theorem streamMerge_eq_inMemoryJoin (how : JoinType) (hhow : how = .inner ∨ how = .left)
    (n : Nat) (P : List (Option SidKey × α)) (R : List (Option SidKey × β))
    (S : List (Option SidKey × γ)) (T : List (Option SidKey × δ))
    (hP : ∀ row ∈ P, row.1.isSome = true) :
    streamMerge how n P R S T = inMemoryJoin how P R S T := by
  have hPmem : ∀ ch ∈ chunksOf n P, ∀ row ∈ ch, row ∈ P := by
    intro ch hch row hrow
    have hfl : row ∈ (chunksOf n P).flatten := List.mem_flatten.mpr ⟨ch, hch, hrow⟩
    rwa [chunksOf_flatten] at hfl
  have hstep : ∀ ch ∈ chunksOf n P,
      chainJoin how ch (filterByIds (ch.filterMap Prod.fst) R)
          (filterByIds (ch.filterMap Prod.fst) S)
          (filterByIds (ch.filterMap Prod.fst) T) =
        chainJoin how ch R S T := by
    intro ch hch
    refine chainJoin_filterByIds how hhow ch R S T ?_
    intro row hrow
    rcases Option.isSome_iff_exists.mp (hP row (hPmem ch hch row hrow)) with ⟨v, hv⟩
    exact ⟨v, List.mem_filterMap.mpr ⟨row, hrow, hv⟩, hv⟩
  rw [streamMerge, inMemoryJoin]
  calc ((chunksOf n P).flatMap fun ch =>
        chainJoin how ch (filterByIds (ch.filterMap Prod.fst) R)
          (filterByIds (ch.filterMap Prod.fst) S) (filterByIds (ch.filterMap Prod.fst) T))
      = (chunksOf n P).flatMap (fun ch => chainJoin how ch R S T) :=
        List.flatMap_congr fun ch hch => hstep ch hch
    _ = chainJoin how (chunksOf n P).flatten R S T := chainJoin_flatten how hhow _ R S T
    _ = chainJoin how P R S T := by rw [chunksOf_flatten]

/-- C1 (counterexample): as stated, the claim quantifies over every join
type, but for `--join-type outer` (chunk size 1) a report row whose key
never occurs in the patient table is dropped by the streaming join and kept
by the in-memory join, so the output multisets differ. -/
theorem c1_outer_counterexample :
    ¬ (Multiset.ofList (streamMerge .outer 1 patientOnly reportOnly
          ([] : List (Option SidKey × Nat)) ([] : List (Option SidKey × Nat))) =
        Multiset.ofList (inMemoryJoin .outer patientOnly reportOnly
          ([] : List (Option SidKey × Nat)) ([] : List (Option SidKey × Nat)))) := by
  decide

/-- C1 (amended): for the key-preserving join types (`inner` and `left` —
the patient side drives) and a patient table without null report keys, the
streaming join emits, for every chunk size, exactly the same row multiset
as one in-memory join of the full tables with the same join type; in
particular this holds for chunk size 1, and per key.  The null-key proviso
is forced by the code: the chunk id set is built with `dropna` and
`_filter_by_ids` drops null-keyed rows, while an unchunked pandas merge
matches `NA` keys of both sides to each other, so with null keys on the
patient side and on another table the two outputs genuinely differ
(`streamMerge_null_keys_diverge`). -/
theorem c1_streaming_join_refines (how : JoinType)
    (hhow : how = .inner ∨ how = .left) (n : Nat)
    (P : List (Option SidKey × α)) (R : List (Option SidKey × β))
    (S : List (Option SidKey × γ)) (T : List (Option SidKey × δ))
    (hP : ∀ row ∈ P, row.1.isSome = true) :
    Multiset.ofList (streamMerge how n P R S T) = Multiset.ofList (inMemoryJoin how P R S T) := by
  rw [streamMerge_eq_inMemoryJoin how hhow n P R S T hP]

/-- Witness for `c1_streaming_join_refines` at a concrete input (duplicate
and missing keys across the tables, a null key on the report side). -/
theorem c1_streaming_join_refines_witness :
    (JoinType.inner = JoinType.inner ∨ JoinType.inner = JoinType.left) ∧
      (∀ row ∈ patientWit, row.1.isSome = true) ∧
      Multiset.ofList (streamMerge .inner 1 patientWit reportWit seriousWit reporterWit) =
        Multiset.ofList (inMemoryJoin .inner patientWit reportWit seriousWit reporterWit) :=
  ⟨Or.inl rfl, by decide,
    c1_streaming_join_refines .inner (Or.inl rfl) 1 patientWit reportWit seriousWit
      reporterWit (by decide)⟩

/-- Fidelity check of the `NA`-matching merge semantics: with null keys on
the patient side and on the other sides, the streaming join diverges from
the in-memory join even for the inner join type (the in-memory merge
matches the null keys to each other; the streaming join's `dropna`-ed id
set and `_filter_by_ids` drop those rows).  This is the divergence that
forces the null-key proviso of `c1_streaming_join_refines`. -/
theorem streamMerge_null_keys_diverge :
    ¬ (Multiset.ofList (streamMerge .inner 1 nullKeyTable nullKeyTable nullKeyTable
          nullKeyTable) =
        Multiset.ofList (inMemoryJoin .inner nullKeyTable nullKeyTable nullKeyTable
          nullKeyTable)) := by
  decide

/-- C9: if any required input table file is missing, the merge stage fails
with an error naming a missing file, and returns no output at all (the
result is `Except.error`, which carries no table). -/
theorem c9_missing_file_fatal (how : JoinType) (n : Nat)
    (files : MergeFiles α β γ δ)
    (h : ∃ name ∈ requiredMergeFiles, fileAbsent files name = true) :
    ∃ name ∈ requiredMergeFiles, fileAbsent files name = true ∧
      mergeMain how n files = .error ("Not found: " ++ name) := by
  rcases files with ⟨p, r, s, t⟩
  rcases hp : p with _ | pv
  · exact ⟨"patient.csv.gz", by simp [requiredMergeFiles], by simp [fileAbsent], rfl⟩
  · rcases hr : r with _ | rv
    · exact ⟨"report.csv.gz", by simp [requiredMergeFiles], by simp [fileAbsent], rfl⟩
    · rcases hs : s with _ | sv
      · exact ⟨"report_serious.csv.gz", by simp [requiredMergeFiles], by simp [fileAbsent], rfl⟩
      · rcases ht : t with _ | tv
        · exact ⟨"reporter.csv.gz", by simp [requiredMergeFiles], by simp [fileAbsent], rfl⟩
        · exfalso
          rcases h with ⟨name, _, habs⟩
          rw [fileAbsent] at habs
          simp [hp, hr, hs, ht] at habs

/-- Witness for `c9_missing_file_fatal`: the patient file is missing. -/
theorem c9_missing_file_fatal_witness :
    (∃ name ∈ requiredMergeFiles,
        fileAbsent (MergeFiles.mk none (some []) (some []) (some [])
          : MergeFiles Nat Nat Nat Nat) name = true) ∧
      ∃ name ∈ requiredMergeFiles,
        fileAbsent (MergeFiles.mk none (some []) (some []) (some [])
          : MergeFiles Nat Nat Nat Nat) name = true ∧
          mergeMain .inner 1 (MergeFiles.mk none (some []) (some []) (some [])
            : MergeFiles Nat Nat Nat Nat) = .error ("Not found: " ++ name) :=
  ⟨⟨"patient.csv.gz", by decide, by decide⟩,
    c9_missing_file_fatal .inner 1 _ ⟨"patient.csv.gz", by decide, by decide⟩⟩

/-- C2: pair materialization is an inner join of drug mentions with
reaction mentions on the report key; a report key with zero drug rows or
zero reaction rows contributes zero rows to the pair table and to the final
table. -/
theorem c2_inner_join_pairs (drug : List DrugMappedRow) (adr : List AdrMappedRow)
    (base : List (String × β)) (k : String)
    (h : drug.filter (fun d => d.sid == k) = [] ∨ adr.filter (fun a => a.sid == k) = []) :
    (pairsTable drug adr).filter (fun p => p.sid == k) = [] ∧
      (finalTable base (pairsTable drug adr)).filter (fun row => row.2.sid == k) = [] := by
  have hmain : ∀ p ∈ pairsTable drug adr, ¬ (p.sid == k) = true := by
    intro p hp hpk
    have hpre := mem_of_mem_pdDedupBy _ _ p hp
    rcases List.mem_flatMap.mp hpre with ⟨d, hd, hmem⟩
    rcases List.mem_map.mp hmem with ⟨a, ha, rfl⟩
    rcases List.mem_filter.mp ha with ⟨haa, hsid⟩
    have hds : d.sid = k := eq_of_beq hpk
    have has : a.sid = d.sid := eq_of_beq hsid
    rcases h with h | h
    · rw [List.filter_eq_nil_iff] at h
      exact h d hd (by simp [hds])
    · rw [List.filter_eq_nil_iff] at h
      exact h a haa (by simp [has, hds])
  constructor
  · rw [List.filter_eq_nil_iff]
    exact hmain
  · rw [List.filter_eq_nil_iff]
    intro row hrow
    rcases List.mem_flatMap.mp hrow with ⟨b, hb, hmem⟩
    rcases List.mem_map.mp hmem with ⟨p, hpmem, rfl⟩
    exact hmain p (List.mem_filter.mp hpmem).1

/-- Witness for `c2_inner_join_pairs`: a drug mention for report "A" with
no reaction mention for "A" yields no pair row for "A". -/
theorem c2_inner_join_pairs_witness :
    (drugWit.filter (fun d => d.sid == "A") = [] ∨
        adrWit.filter (fun a => a.sid == "A") = []) ∧
      (pairsTable drugWit adrWit).filter (fun p => p.sid == "A") = [] ∧
      (finalTable [("A", (0 : Nat))] (pairsTable drugWit adrWit)).filter
        (fun row => row.2.sid == "A") = [] :=
  ⟨Or.inr (by decide),
    c2_inner_join_pairs drugWit adrWit [("A", (0 : Nat))] "A" (Or.inr (by decide))⟩

/-! ## Properties of the vocabulary resolvers -/

theorem mem_hopTable_struct {r : List RelRow} {c : List CRx} {ids : List Int}
    {t : HopRow} (h : t ∈ hopTable r c ids) :
    t.1 ∈ r ∧ t.1.concept_id_1 = t.2.1.concept_id ∧
      t.1.concept_id_2 = t.2.2.concept_id := by
  rw [hopTable, mem_pdDedup] at h
  rcases List.mem_filter.mp h with ⟨hj, _⟩
  rw [hopJoin] at hj
  rcases List.mem_flatMap.mp hj with ⟨e, he, hj2⟩
  rcases List.mem_flatMap.mp hj2 with ⟨x1, hx1, hj3⟩
  rcases List.mem_map.mp hj3 with ⟨x2, hx2, rfl⟩
  rcases List.mem_filter.mp he with ⟨heR, _⟩
  rcases List.mem_filter.mp hx1 with ⟨_, hbeq1⟩
  rcases List.mem_filter.mp hx2 with ⟨_, hbeq2⟩
  exact ⟨heR, (eq_of_beq hbeq1).symm, (eq_of_beq hbeq2).symm⟩

theorem mem_fsStMerge_struct {r : List RelRow} {c : List CRx} {rxIds : List Int}
    {p : HopRow × HopRow} (h : p ∈ fsStMerge r c rxIds) :
    p.1 ∈ fsT r c rxIds ∧ p.2 ∈ stT r c rxIds ∧ p.2.2.1 = p.1.2.2 := by
  rw [fsStMerge] at h
  rcases List.mem_flatMap.mp h with ⟨f, hf, hmem⟩
  rcases List.mem_map.mp hmem with ⟨s, hs, rfl⟩
  rcases List.mem_filter.mp hs with ⟨hs2, hbeq⟩
  exact ⟨hf, hs2, eq_of_beq hbeq⟩

/-- C4 (amended): every emitted `rx_all` row is justified by a path of
exactly two or exactly three edges of the raw relationship table; the
traversal never accepts a destination at one hop, nor beyond three hops
(the fourth- and fifth-hop tables `ff`/`fsx` are computed but unused), so
the claimed hop bound of 6 does not describe the emitted results. -/
theorem c4_paths_bounded (rel : List RelRow) (concept : List ConceptRow)
    (rxIds : List Int) (x : RxAllRow) (hx : x ∈ rx_all rel concept rxIds) :
    rxAllPathWitness rel x := by
  rw [rx_all, rxAllT, mem_pdDedup] at hx
  rcases List.mem_append.mp hx with hx | hx
  · rcases List.mem_map.mp hx with ⟨p, hp, rfl⟩
    rw [rx123ToAdd, mem_pdDedup] at hp
    rcases List.mem_map.mp hp with ⟨q, hq, rfl⟩
    rw [rx123T, mem_pdDedup] at hq
    rcases List.mem_filter.mp hq with ⟨hqm, hqc⟩
    rcases mem_fsStMerge_struct hqm with ⟨hf, hs, heq2⟩
    rcases mem_hopTable_struct hf with ⟨hfe, hf1, hf2⟩
    rcases mem_hopTable_struct hs with ⟨hse, hs1, hs2⟩
    rcases Bool.and_eq_true _ _ |>.mp hqc with ⟨hing, hne⟩
    refine ⟨q.1.1, q.2.1, (mem_pdDedup rel q.1.1).mp hfe,
      (mem_pdDedup rel q.2.1).mp hse, hf1, ?_, hs2, eq_of_beq hing, ?_⟩
    · rw [hf2, ← heq2, ← hs1]
    · intro hcls
      rw [bne_iff_ne] at hne
      exact hne hcls
  · rcases List.mem_map.mp hx with ⟨q, hq, rfl⟩
    rw [rx1234T, mem_pdDedup] at hq
    rcases List.mem_filter.mp hq with ⟨hq4, hqing⟩
    rcases List.mem_flatMap.mp hq4 with ⟨p, hp, hmem⟩
    rcases List.mem_map.mp hmem with ⟨t, ht, rfl⟩
    rcases List.mem_filter.mp ht with ⟨ht2, htbeq⟩
    rcases List.mem_filter.mp hp with ⟨hpm, _⟩
    rcases mem_fsStMerge_struct hpm with ⟨hf, hs, heq2⟩
    rcases mem_hopTable_struct hf with ⟨hfe, hf1, hf2⟩
    rcases mem_hopTable_struct hs with ⟨hse, hs1, hs2⟩
    rcases mem_hopTable_struct ht2 with ⟨hte, ht1, _⟩
    refine ⟨(mem_pdDedup rel p.1.1).mp hfe, (mem_pdDedup rel p.2.1).mp hse,
      (mem_pdDedup rel t.1).mp hte, hf1, ?_, ?_, ?_, eq_of_beq hqing⟩
    · rw [hf2, ← heq2, ← hs1]
    · rw [hs2, ← eq_of_beq htbeq, ← ht1]
    · rw [hf2]

/-- Witness for `c4_paths_bounded`: the two-hop chain result. -/
theorem c4_paths_bounded_witness :
    ((Sum.inl (⟨1, "c1", "Clinical Drug", "Aspirin 81mg"⟩,
        ⟨3, "c3", "Ingredient", "Aspirin"⟩) : RxAllRow) ∈
          rx_all chain3Rel chain3Concept scenRxIds) ∧
      rxAllPathWitness chain3Rel
        (Sum.inl (⟨1, "c1", "Clinical Drug", "Aspirin 81mg"⟩,
          ⟨3, "c3", "Ingredient", "Aspirin"⟩)) := by
  have hlist : rx_all chain3Rel chain3Concept scenRxIds =
      [Sum.inl (⟨1, "c1", "Clinical Drug", "Aspirin 81mg"⟩,
        ⟨3, "c3", "Ingredient", "Aspirin"⟩)] := by decide
  have hmem : (Sum.inl (⟨1, "c1", "Clinical Drug", "Aspirin 81mg"⟩,
      ⟨3, "c3", "Ingredient", "Aspirin"⟩) : RxAllRow) ∈
        rx_all chain3Rel chain3Concept scenRxIds := by
    rw [hlist]
    exact List.mem_singleton.mpr rfl
  exact ⟨hmem, c4_paths_bounded chain3Rel chain3Concept scenRxIds _ hmem⟩

/-- C3 (counterexample): on the spec's two-concept vocabulary (Clinical
Drug 1 with a single edge to Ingredient 2) the resolver emits nothing — not
the claimed result set containing concept 2 — because only two- and
three-edge paths are materialized and a direct one-hop ingredient is never
accepted. -/
theorem c3_one_hop_counterexample :
    std_ing scenStd scenRel2 scenConcept2 scenRxIds = [] ∧
      rx_all scenRel2 scenConcept2 scenRxIds = [] := by
  decide

/-- C3 (amended): with one intermediate concept (1 → 2 → 3, concept 3 of
class Ingredient), the resolver emits exactly one row for report R1 mapping
product 1 to ingredient 3; the spec's direct one-hop scenario instead
yields the empty result set (see the counterexample). -/
theorem c3_two_hop_resolution :
    std_ing scenStd chain3Rel chain3Concept scenRxIds =
      [{ sid := "R1", rxnorm_concept_id := 1, origin_code := "c1",
         origin_name := "Aspirin 81mg", origin_class := "Clinical Drug",
         rxnorm_concept_code := "c3", rxnorm_concept_name := "Aspirin",
         rxnorm_concept_class_id := "Ingredient", extra := none }] := by
  decide

/-- C4 (counterexample): an Ingredient four hops from the product — well
within the claimed bound of six — is not returned: the resolver emits
nothing on a four-edge chain whose only Ingredient is the final concept. -/
theorem c4_four_hop_counterexample :
    std_ing scenStd chain5Rel chain5Concept scenRxIds = [] ∧
      rx_all chain5Rel chain5Concept scenRxIds = [] := by
  decide

/-- C5: on the spec's four-node PT → HLT → HLGT → SOC chain the resolver's
`pt_to_soc` output is empty, although `third_rel` does contain the
HLGT → SOC step (12, 13): the final join matches the reaction's PT id
against `third_rel`'s `MedDRA_concept_id_3` column, which holds the
HLGT-side id, so Hierarchy-Resolver(10) is not 13 as claimed. -/
theorem c5_hierarchy_resolver_drops_pt :
    pt_to_soc hierStdRx hierRel hierConcept = [] ∧
      (thirdRelT (pdDedup hierRel) (medOf hierConcept)).map
        (fun t => (t.2.1.concept_id, t.2.2.concept_id)) = [(12, 13)] := by
  decide

/-- C6 (counterexample): a reaction row whose concept id (3) carries two
SOC edges receives **two** `pt_to_soc` rows with different top-level
categories (4 and 5): the resolver performs no at-most-one selection, no
nearest-hop preference and no lowest-id tie-break. -/
theorem c6_two_soc_counterexample :
    (pt_to_soc twoSocStdRx twoSocRel twoSocConcept).map
        (fun row => row.2.2.2.2.concept_id) = [4, 5] := by
  decide

/-- C6 (amended): `pt_to_soc` returns *every* matching chain row — a row
`(sid, cid, t)` is emitted exactly when `(sid, cid)` occurs in the reaction
table and `t` is a `third_rel` row whose level-3 id equals `cid`; several
top-level categories per reaction id are therefore possible and no
selection is applied. -/
theorem c6_pt_to_soc_members (stdRx : List (String × Int)) (rel : List RelRow)
    (concept : List ConceptRow) (sid : String) (cid : Int) (t : AMRow) :
    (sid, cid, t) ∈ pt_to_soc stdRx rel concept ↔
      ((sid, cid) ∈ stdRx ∧ t ∈ thirdRelT (pdDedup rel) (medOf concept) ∧
        t.2.1.concept_id = cid) := by
  rw [pt_to_soc, ptToSocT, mem_pdDedup]
  constructor
  · intro h
    rcases List.mem_flatMap.mp h with ⟨sc, hsc, hmem⟩
    rcases List.mem_map.mp hmem with ⟨t0, ht0, heq⟩
    rcases List.mem_filter.mp ht0 with ⟨ht1, hbeq⟩
    have h1 : sc.1 = sid := congrArg Prod.fst heq
    have h2 : sc.2 = cid := congrArg Prod.fst (congrArg Prod.snd heq)
    have h3 : t0 = t := congrArg Prod.snd (congrArg Prod.snd heq)
    subst h3
    refine ⟨?_, ht1, by rw [eq_of_beq hbeq, h2]⟩
    have := (mem_pdDedup stdRx sc).mp hsc
    rwa [show sc = (sid, cid) from Prod.ext h1 h2] at this
  · rintro ⟨h1, h2, h3⟩
    refine List.mem_flatMap.mpr ⟨(sid, cid), (mem_pdDedup stdRx (sid, cid)).mpr h1, ?_⟩
    refine List.mem_map.mpr ⟨t, ?_, rfl⟩
    exact List.mem_filter.mpr ⟨h2, by simp [h3]⟩

/-- C7: on a three-edge chain 1 → 2 → 3 → 4 whose Ingredient is concept 4,
the emitted row's ingredient-slot class is that of the first intermediate
concept 2 ("Clinical Drug Comp"), not "Ingredient": the `rx1234` branch is
concatenated without the projection/rename that the `rx123` branch
received, so its level-2 columns — the first hop — are emitted as the
result, violating the stop predicate. -/
theorem c7_three_hop_emits_non_ingredient :
    (std_ing scenStd chain4Rel chain4Concept scenRxIds).map
        (fun row => (row.rxnorm_concept_id, row.rxnorm_concept_class_id)) =
      [(1, "Clinical Drug Comp")] := by
  decide

/-- C8: appending a duplicate copy of an existing relationship edge leaves
both resolvers' outputs unchanged (edges are deduplicated before
traversal), and both outputs are themselves duplicate-free. -/
theorem c8_duplicate_edges_no_effect (std : List (Int × String))
    (stdRx : List (String × Int)) (rel : List RelRow) (concept : List ConceptRow)
    (rxIds : List Int) (e : RelRow) (he : e ∈ rel) :
    std_ing std (rel ++ [e]) concept rxIds = std_ing std rel concept rxIds ∧
      pt_to_soc stdRx (rel ++ [e]) concept = pt_to_soc stdRx rel concept ∧
      (std_ing std rel concept rxIds).Nodup ∧
      (pt_to_soc stdRx rel concept).Nodup := by
  have hded : pdDedup (rel ++ [e]) = pdDedup rel := pdDedup_append_mem rel e he
  refine ⟨?_, ?_, ?_, ?_⟩
  · rw [std_ing, std_ing, hded]
  · rw [pt_to_soc, pt_to_soc, hded]
  · rw [std_ing, stdIngT]
    exact nodup_pdDedup _
  · rw [pt_to_soc, ptToSocT]
    exact nodup_pdDedup _

/-- Witness for `c8_duplicate_edges_no_effect` on the two-hop chain, with a
duplicate of its first edge. -/
theorem c8_duplicate_edges_no_effect_witness :
    ((⟨1, 2, "Consists of"⟩ : RelRow) ∈ chain3Rel) ∧
      (std_ing scenStd (chain3Rel ++ [⟨1, 2, "Consists of"⟩]) chain3Concept scenRxIds =
          std_ing scenStd chain3Rel chain3Concept scenRxIds ∧
        pt_to_soc hierStdRx (chain3Rel ++ [⟨1, 2, "Consists of"⟩]) chain3Concept =
          pt_to_soc hierStdRx chain3Rel chain3Concept ∧
        (std_ing scenStd chain3Rel chain3Concept scenRxIds).Nodup ∧
        (pt_to_soc hierStdRx chain3Rel chain3Concept).Nodup) := by
  have hmem : (⟨1, 2, "Consists of"⟩ : RelRow) ∈ chain3Rel := by
    exact List.mem_cons_self _ _
  exact ⟨hmem,
    c8_duplicate_edges_no_effect scenStd hierStdRx chain3Rel chain3Concept scenRxIds _ hmem⟩
